import Mathlib

/-
Shallow embedding of the mageconfig configuration-resolution engine.

Source functions modelled (Go): Load, initializeIsSet, setDefault,
loadFromFile, loadFromEnv, loadFromArgs, getArgValue,
checkRequiredAndDepends (mageconfig.go, the evolution with the
depends tag), plus the helpers getTagOrDefault, setFields,
setFieldByKind, parseStringToType (helpers.go).

Modelling conventions:
- Go strings are modelled as lists of characters (`Str`).  Go indexes
  bytes; every input of interest here is ASCII, where the two views
  coincide.
- The destination struct is a list of (field declaration, current
  value) pairs in declared order; reflective assignment becomes
  updating the value component.
- The isSet map (map[string]*bool) is an association list from field
  name to Bool; taking the address and writing through the pointer
  becomes `setTrue`.
- os.Open / bufio scanning is abstracted by `FileSrc`: the caller's
  path argument either is empty, names a missing file, fails with a
  non-not-found I/O error, or yields the file's lines.
- Fallible Go code returns `Except LoadErr`; a Go runtime panic during
  file parsing (the out-of-range slice in the quote stripper) is the
  explicit result `LoadErr.runtimePanic` / `LineResult.crash`.
- Process-level concerns outside the resolution engine (help printing,
  the once/isLoaded latch, the Mage-command early return, printUsage,
  DropArgsAfterTarget) are not modelled: the spec scopes them out as
  external collaborators.
- The duration, timestamp and float scalar kinds of parseStringToType
  are not needed by any claim and are omitted from the type universe;
  all other branches of the conversion functions are modelled.
-/

namespace Mageconfig

abbrev Str := List Char

/-- Convert a Lean string literal to the character-list model of Go strings. -/
def str (s : String) : Str := s.toList

/-- The double-quote character (byte 34), written via its code point. -/
def dquote : Char := Char.ofNat 34

/-- The single-quote character (byte 39), written via its code point. -/
def squote : Char := Char.ofNat 39

/-- ASCII white space as trimmed by Go strings.TrimSpace
(unicode.IsSpace restricted to the ASCII range). -/
def isSpaceGo (c : Char) : Bool :=
  c == ' ' || c == '\t' || c == '\n' || c == '\x0b' || c == '\x0c' || c == '\r'

/-- Go strings.TrimSpace: drop white space from both ends. -/
def trimSpace (s : Str) : Str :=
  ((s.dropWhile isSpaceGo).reverse.dropWhile isSpaceGo).reverse

/-- Go strings.Split s sep for a one-character separator: note that
splitting the empty string yields one empty part, as in Go. -/
def splitOnChar (sep : Char) : Str → List Str
  | [] => [[]]
  | c :: rest =>
    if c = sep then [] :: splitOnChar sep rest
    else
      match splitOnChar sep rest with
      | [] => [[c]]
      | a :: as => (c :: a) :: as

/-- Go strings.SplitN s sep 2 for a one-character separator: `none`
when the separator does not occur (Go returns a single part, which the
callers treat as "not exactly two parts"), otherwise the text before
the first separator and everything after it. -/
def splitN2 (sep : Char) : Str → Option (Str × Str)
  | [] => none
  | c :: rest =>
    if c = sep then some ([], rest)
    else
      match splitN2 sep rest with
      | none => none
      | some (a, b) => some (c :: a, b)

/-- Go strings.Index arg "=": index of the first '=', `none` for -1. -/
def eqIdx : Str → Option Nat
  | [] => none
  | c :: rest =>
    if c = '=' then some 0
    else (eqIdx rest).map (· + 1)

/-- Go strings.TrimLeft s "-": drop every leading dash. -/
def trimDashes (s : Str) : Str := s.dropWhile (fun c => c = '-')

/-- Go strings.HasPrefix s "-" (argPrefix). -/
def startsWithDash (s : Str) : Bool :=
  match s with
  | c :: _ => c = '-'
  | [] => false

/-- Go strings.ToLower restricted to ASCII. -/
def toLowerStr (s : Str) : Str := s.map Char.toLower

/-- Association-list lookup, first entry wins: the read side of a Go
map built by overwriting inserts. -/
def alLookup {α : Type} : List (Str × α) → Str → Option α
  | [], _ => none
  | e :: rest, k => if e.1 = k then some e.2 else alLookup rest k

/-- Association-list insert with overwrite: Go map assignment m[k] = v. -/
def alInsert {α : Type} : List (Str × α) → Str → α → List (Str × α)
  | [], k, v => [(k, v)]
  | e :: rest, k, v => if e.1 = k then (k, v) :: rest else e :: alInsert rest k v

/-- Scalar and aggregate type universe of the engine: reflect.Bool,
Int, Uint, String, Slice and Map (string-keyed) as handled by
setFieldByKind / parseStringToType.  Duration, Time and Float are not
needed by any claim and are omitted. -/
inductive TypeKind where
  | bool
  | int
  | uint
  | string
  | slice (elem : TypeKind)
  | kmap (elem : TypeKind)
deriving DecidableEq

/-- Runtime values stored in destination-struct fields. -/
inductive Value where
  | vBool (b : Bool)
  | vInt (i : Int)
  | vUInt (n : Nat)
  | vStr (s : Str)
  | vSlice (elems : List Value)
  | vMap (entries : List (Str × Value))

/-- Error taxonomy of the resolution call.  convErr covers the
strconv parse failures (wrapped as "parse field: ..." in Go),
mapFormatErr is "invalid map default value: tok", fileErr is an
open/read failure other than not-found, runtimePanic is the Go
runtime abort in the file-line quote stripper, and the two *NotSet
errors are ErrRequiredNotSet / ErrDependsNotSet wrapped with the
offending name. -/
inductive LoadErr where
  | convErr
  | mapFormatErr (tok : Str)
  | unsupportedType
  | fileErr
  | runtimePanic
  | requiredNotSet (name : Str)
  | dependsNotSet (name : Str)
deriving DecidableEq

/-- Per-field static metadata: the struct tags of one field of the
destination record, in declared order.  An absent tag is the empty
string.  (The desc tag feeds only the help printer and is omitted.) -/
structure ConfigField where
  name : Str
  kind : TypeKind
  argTag : Str
  envTag : Str
  fileTag : Str
  defaultTag : Str
  requiredTag : Str
  dependsTag : Str
deriving DecidableEq

/-- The destination record: fields with their current values, in
declared order. -/
abbrev RecordState := List (ConfigField × Value)

/-- The set-tracking map: field name to "has been set". -/
abbrev IsSetMap := List (Str × Bool)

/-- The parsed key-value configuration file. -/
abbrev FileMap := List (Str × Str)

/-- The process environment: name to value, os.LookupEnv is lookup. -/
abbrev Env := List (Str × Str)

/-- Go strconv.ParseBool. -/
def parseBoolGo (s : Str) : Option Bool :=
  if s = str "1" ∨ s = str "t" ∨ s = str "T" ∨ s = str "TRUE" ∨
     s = str "true" ∨ s = str "True" then some true
  else if s = str "0" ∨ s = str "f" ∨ s = str "F" ∨ s = str "FALSE" ∨
     s = str "false" ∨ s = str "False" then some false
  else none

/-- Decimal digit run to a number: `none` unless the whole remaining
string is made of digits. -/
def digitsValAux : Nat → Str → Option Nat
  | acc, [] => some acc
  | acc, c :: rest =>
    if c.isDigit then digitsValAux (acc * 10 + (c.toNat - '0'.toNat)) rest
    else none

/-- Nonempty all-digit string to its value. -/
def digitsToNat : Str → Option Nat
  | [] => none
  | s => digitsValAux 0 s

/-- Go strconv.ParseInt(s, 10, 64): optional sign, decimal digits,
64-bit signed range. -/
def parseIntGo (s : Str) : Option Int :=
  match s with
  | [] => none
  | c :: rest =>
    let signAndDigits : Bool × Str :=
      if c = '-' then (true, rest)
      else if c = '+' then (false, rest)
      else (false, c :: rest)
    match digitsToNat signAndDigits.2 with
    | none => none
    | some n =>
      if signAndDigits.1 then
        if n ≤ 2 ^ 63 then some (-(n : Int)) else none
      else
        if n ≤ 2 ^ 63 - 1 then some (n : Int) else none

/-- Go strconv.ParseUint(s, 10, 64): decimal digits only (no sign),
64-bit unsigned range. -/
def parseUintGo (s : Str) : Option Nat :=
  match digitsToNat s with
  | none => none
  | some n => if n ≤ 2 ^ 64 - 1 then some n else none

/-- Go parseStringToType (helpers.go): parse a string into a scalar
kind; slice/map element kinds that are themselves aggregates fall into
the "unsupported type" branch, as in the Go switch. -/
def parseStringToType (s : Str) (t : TypeKind) : Except LoadErr Value :=
  match t with
  | .bool =>
    match parseBoolGo s with
    | some b => .ok (.vBool b)
    | none => .error .convErr
  | .int =>
    match parseIntGo s with
    | some i => .ok (.vInt i)
    | none => .error .convErr
  | .uint =>
    match parseUintGo s with
    | some n => .ok (.vUInt n)
    | none => .error .convErr
  | .string => .ok (.vStr s)
  | .slice _ => .error .unsupportedType
  | .kmap _ => .error .unsupportedType

/-- Element loop of the slice branch of setFieldByKind: each element
trimmed and converted, first failure aborts. -/
def convertElems (elem : TypeKind) : List Str → Except LoadErr (List Value)
  | [] => .ok []
  | e :: rest =>
    match parseStringToType (trimSpace e) elem with
    | .error er => .error er
    | .ok v =>
      match convertElems elem rest with
      | .error er => .error er
      | .ok vs => .ok (v :: vs)

/-- Pair loop of the map branch of setFieldByKind: split each
pair-token on the first ':' (SplitN 2); a token without ':' aborts
with mapFormatErr naming it; otherwise the trimmed value text is
converted and inserted under the trimmed key (map overwrite). -/
def buildMapVal (elem : TypeKind) :
    List Str → List (Str × Value) → Except LoadErr (List (Str × Value))
  | [], acc => .ok acc
  | pair :: rest, acc =>
    match splitN2 ':' pair with
    | none => .error (.mapFormatErr pair)
    | some kv =>
      match parseStringToType (trimSpace kv.2) elem with
      | .error er => .error er
      | .ok v => buildMapVal elem rest (alInsert acc (trimSpace kv.1) v)

/-- Go setFieldByKind (helpers.go): dispatch on the field's kind;
slices split on ',' (sliceSeparator), maps additionally split each
pair on ':' (kvSeparator), scalars go through parseStringToType. -/
def setFieldByKind (f : ConfigField) (strVal : Str) : Except LoadErr Value :=
  match f.kind with
  | .slice elem =>
    match convertElems elem (splitOnChar ',' strVal) with
    | .error e => .error e
    | .ok vs => .ok (.vSlice vs)
  | .kmap elem =>
    match buildMapVal elem (splitOnChar ',' strVal) [] with
    | .error e => .error e
    | .ok entries => .ok (.vMap entries)
  | k => parseStringToType strVal k

/-- Go setFields (helpers.go): iterate the struct's fields in declared
order, applying the per-field closure; the first error aborts.  The
closure receives the field metadata and the current value and returns
the new value together with the updated isSet map (the Go closures
mutate both through pointers). -/
def setFields
    (step : ConfigField → Value → IsSetMap → Except LoadErr (Value × IsSetMap)) :
    RecordState → IsSetMap → Except LoadErr (RecordState × IsSetMap)
  | [], m => .ok ([], m)
  | fv :: rest, m =>
    match step fv.1 fv.2 m with
    | .error e => .error e
    | .ok vm =>
      match setFields step rest vm.2 with
      | .error e => .error e
      | .ok rm => .ok ((fv.1, vm.1) :: rm.1, rm.2)

/-- Set-tracking lookup: isSet[name], `none` when the key is absent
(a nil pointer in Go). -/
def lookupIsSet (m : IsSetMap) (n : Str) : Option Bool := alLookup m n

/-- Writing true through the tracked pointer: *isSet[name] = true.
Absent keys are untouched (within Load every field name is present,
initializeIsSet having inserted them all). -/
def setTrue : IsSetMap → Str → IsSetMap
  | [], _ => []
  | e :: rest, n => if e.1 = n then (e.1, true) :: rest else e :: setTrue rest n

/-- Go initializeIsSet: one entry per field, all false. -/
def initializeIsSet (st : RecordState) : IsSetMap :=
  st.map (fun fv => (fv.1.name, false))

/-- Shared shape of all four pass closures: obtain the candidate
source string for the field; absent means leave the field and the
tracking entry alone; present means convert and assign with
setFieldByKind and mark the field set. -/
def srcStep (src : ConfigField → Option Str) (f : ConfigField) (v : Value)
    (m : IsSetMap) : Except LoadErr (Value × IsSetMap) :=
  match src f with
  | none => .ok (v, m)
  | some s =>
    match setFieldByKind f s with
    | .error e => .error e
    | .ok v2 => .ok (v2, setTrue m f.name)

/-- Defaults-pass candidate: the default tag unless empty
(setDefault's early return on defaultValue == ""). -/
def defaultSrc (f : ConfigField) : Option Str :=
  if f.defaultTag = [] then none else some f.defaultTag

/-- Go setDefault: convert-and-assign every nonempty default literal,
marking the field set. -/
def setDefault (st : RecordState) (m : IsSetMap) :
    Except LoadErr (RecordState × IsSetMap) :=
  setFields (srcStep defaultSrc) st m

/-- File-pass candidate: skip fields without a file tag, otherwise the
parsed file map's entry for that key, if any. -/
def fileSrc (content : FileMap) (f : ConfigField) : Option Str :=
  if f.fileTag = [] then none else alLookup content f.fileTag

/-- Outcome of one scanned line of the configuration file.  `crash` is
the Go runtime panic (slice bounds out of range) that the quote
stripper hits when the trimmed value is a single quote character. -/
inductive LineResult where
  | skip
  | entry (key value : Str)
  | crash
deriving DecidableEq

/-- The quote-stripping step of loadFromFile, exactly as guarded in
Go: if the value is nonempty and its first and last byte are both '"'
or both '\'', take value[1 : len-1].  For a one-character value the
guard passes (first and last byte coincide) and the slice bounds are
[1:0], a runtime panic — modelled as `none`. -/
def stripQuotesGo (value : Str) : Option Str :=
  if 0 < value.length ∧
      ((value.headD ' ' = dquote ∧ value.getLastD ' ' = dquote) ∨
       (value.headD ' ' = squote ∧ value.getLastD ' ' = squote)) then
    if 2 ≤ value.length then some ((value.drop 1).dropLast) else none
  else some value

/-- One line of the scanner loop of loadFromFile: SplitN on the first
':' (kvSeparator); not exactly two parts means the line is skipped;
both parts are trimmed and the value goes through the quote stripper. -/
def parseLine (line : Str) : LineResult :=
  match splitN2 ':' line with
  | none => .skip
  | some kv =>
    match stripQuotesGo (trimSpace kv.2) with
    | none => .crash
    | some value => .entry (trimSpace kv.1) value

/-- The scanner loop of loadFromFile: fold the parsed lines into the
fileContent map, later occurrences of a key overwriting earlier ones; a
crashing line aborts the whole call. -/
def buildFileContentAux : FileMap → List Str → Except LoadErr FileMap
  | acc, [] => .ok acc
  | acc, line :: rest =>
    match parseLine line with
    | .skip => buildFileContentAux acc rest
    | .crash => .error .runtimePanic
    | .entry k v => buildFileContentAux (alInsert acc k v) rest

/-- Parse all lines of the configuration file into the fileContent map. -/
def buildFileContent (lines : List Str) : Except LoadErr FileMap :=
  buildFileContentAux [] lines

/-- The caller's file argument as Load observes it: empty path, path
to a missing file (os.ErrNotExist), an open/read failure of any other
kind, or the file's lines. -/
inductive FileSrc where
  | noPath
  | notFound
  | ioError
  | found (lines : List Str)

/-- Go loadFromFile: empty path and a missing file are silent no-ops;
any other open/read failure propagates; otherwise scan the file into
the content map and run the per-field assignment loop. -/
def loadFromFile (st : RecordState) (fsrc : FileSrc) (m : IsSetMap) :
    Except LoadErr (RecordState × IsSetMap) :=
  match fsrc with
  | .noPath => .ok (st, m)
  | .notFound => .ok (st, m)
  | .ioError => .error .fileErr
  | .found lines =>
    match buildFileContent lines with
    | .error e => .error e
    | .ok content => setFields (srcStep (fileSrc content)) st m

/-- Stating helper (not a Go function): the parsed file map that Load
effectively consults — empty when no file configuration was supplied,
the scanner's map when lines were read, the error otherwise. -/
def effFileMap : FileSrc → Except LoadErr FileMap
  | .noPath => .ok []
  | .notFound => .ok []
  | .ioError => .error .fileErr
  | .found lines => buildFileContent lines

/-- Environment-pass candidate: skip fields without an env tag,
otherwise os.LookupEnv — presence with an empty string still counts. -/
def envSrc (env : Env) (f : ConfigField) : Option Str :=
  if f.envTag = [] then none else alLookup env f.envTag

/-- Go loadFromEnv. -/
def loadFromEnv (st : RecordState) (env : Env) (m : IsSetMap) :
    Except LoadErr (RecordState × IsSetMap) :=
  setFields (srcStep (envSrc env)) st m

/-- Go getTagOrDefault for the arg tag: the tag's value, or the
lower-cased field name when absent. -/
def getTagOrDefault (f : ConfigField) : Str :=
  if f.argTag = [] then toLowerStr f.name else f.argTag

/-- The scan loop of Go getArgValue over os.Args[1:].  Each token is
stripped of all leading dashes; if it then contains '=' at a positive
index it matches when the part before '=' equals the argument name and
yields the part after; otherwise a token equal to the name takes the
next token as value when one exists and does not begin with a dash,
yields the literal "true" for boolean arguments when it does not, and
otherwise the scan continues. -/
def getArgScan (argName : Str) (isBool : Bool) : List Str → Str
  | [] => []
  | a :: rest =>
    match eqIdx (trimDashes a) with
    | some (Nat.succ idx1) =>
      if (trimDashes a).take (idx1 + 1) = argName then (trimDashes a).drop (idx1 + 2)
      else getArgScan argName isBool rest
    | _ =>
      if trimDashes a = argName then
        match rest with
        | next :: _ =>
          if startsWithDash next then
            if isBool then str "true" else getArgScan argName isBool rest
          else next
        | [] => if isBool then str "true" else getArgScan argName isBool rest
      else getArgScan argName isBool rest

/-- Go getArgValue: scan os.Args from index 1; the empty string means
"no value found". -/
def getArgValue (osArgs : List Str) (argName : Str) (isBool : Bool) : Str :=
  getArgScan argName isBool (osArgs.drop 1)

/-- Argument-pass candidate: getArgValue under the field's effective
argument name; the empty result means the field is skipped. -/
def argSrc (args : List Str) (f : ConfigField) : Option Str :=
  let v := getArgValue args (getTagOrDefault f) (decide (f.kind = TypeKind.bool))
  if v = [] then none else some v

/-- Go loadFromArgs. -/
def loadFromArgs (st : RecordState) (args : List Str) (m : IsSetMap) :
    Except LoadErr (RecordState × IsSetMap) :=
  setFields (srcStep (argSrc args)) st m

/-- Set-tracking test of checkRequiredAndDepends:
isSet[n] == nil || !*isSet[n]. -/
def unsetIn (m : IsSetMap) (n : Str) : Bool :=
  match lookupIsSet m n with
  | none => true
  | some b => !b

/-- The parsed depends tag: strings.Split(dependsStr, ",") — no
trimming of the parts. -/
def depList (f : ConfigField) : List Str := splitOnChar ',' f.dependsTag

/-- Inner loop of the depends check: first dependency with an absent
or false tracking entry fails, naming the dependency. -/
def checkDepends (m : IsSetMap) : List Str → Option LoadErr
  | [] => none
  | d :: rest =>
    if unsetIn m d = true then some (.dependsNotSet d)
    else checkDepends m rest

/-- Go checkRequiredAndDepends: fields in declared order; a field with
required:"true" and an unset tracking entry fails naming the field;
then a nonempty depends tag is split on ',' and each dependency is
checked; the first violation is returned. -/
def checkRequiredAndDepends : List ConfigField → IsSetMap → Option LoadErr
  | [], _ => none
  | f :: rest, m =>
    if f.requiredTag = str "true" ∧ unsetIn m f.name = true then
      some (.requiredNotSet f.name)
    else if f.dependsTag = [] then checkRequiredAndDepends rest m
    else
      match checkDepends m (depList f) with
      | some e => some e
      | none => checkRequiredAndDepends rest m

/-- The body of the field loop of checkRequiredAndDepends, as a
per-field function: the violation this field contributes, if any. -/
def fieldViolation (m : IsSetMap) (f : ConfigField) : Option LoadErr :=
  if f.requiredTag = str "true" ∧ unsetIn m f.name = true then
    some (.requiredNotSet f.name)
  else if f.dependsTag = [] then none
  else checkDepends m (depList f)

/-- Go Load, from the shape check onward: initialize the tracking map,
run the four passes in the fixed order defaults → file → environment →
arguments (each aborting the call on its first error), then validate
required/depends.  The help-flag and Mage-command early exits and the
once/isLoaded latch are process-level and outside this model. -/
def Load (st : RecordState) (fsrc : FileSrc) (env : Env) (args : List Str) :
    Except LoadErr (RecordState × IsSetMap) :=
  match setDefault st (initializeIsSet st) with
  | .error e => .error e
  | .ok sm1 =>
    match loadFromFile sm1.1 fsrc sm1.2 with
    | .error e => .error e
    | .ok sm2 =>
      match loadFromEnv sm2.1 env sm2.2 with
      | .error e => .error e
      | .ok sm3 =>
        match loadFromArgs sm3.1 args sm3.2 with
        | .error e => .error e
        | .ok sm4 =>
          match checkRequiredAndDepends (sm4.1.map Prod.fst) sm4.2 with
          | some e => .error e
          | none => .ok sm4

/-- Matching test of one scanned token against an argument name,
mirroring the two match forms of getArgScan (used to say "this token
does not match" in theorems about the scan). -/
def tokMatches (argName : Str) (a : Str) : Bool :=
  match eqIdx (trimDashes a) with
  | some (Nat.succ idx1) => decide ((trimDashes a).take (idx1 + 1) = argName)
  | _ => decide (trimDashes a = argName)

/-! ### Association-list and set-tracking lemmas -/

theorem alLookup_alInsert_self {α : Type} (m : List (Str × α)) (k : Str) (v : α) :
    alLookup (alInsert m k v) k = some v := by
  induction m with
  | nil => simp [alInsert, alLookup]
  | cons e rest ih =>
    by_cases h : e.1 = k
    · simp [alInsert, alLookup, h]
    · simp [alInsert, alLookup, h, ih]

theorem alLookup_alInsert_ne {α : Type} (m : List (Str × α)) (k k2 : Str) (v : α)
    (h : k2 ≠ k) : alLookup (alInsert m k v) k2 = alLookup m k2 := by
  induction m with
  | nil => simp [alInsert, alLookup, Ne.symm h]
  | cons e rest ih =>
    by_cases he : e.1 = k
    · simp [alInsert, alLookup, he, Ne.symm h]
    · by_cases hn : e.1 = k2
      · simp [alInsert, alLookup, he, hn, h]
      · simp only [alInsert, alLookup, if_neg he, if_neg hn]
        exact ih

theorem lookup_setTrue_self (m : IsSetMap) (n : Str) :
    lookupIsSet (setTrue m n) n = (lookupIsSet m n).map (fun _ => true) := by
  induction m with
  | nil => simp [setTrue, lookupIsSet, alLookup]
  | cons e rest ih =>
    by_cases h : e.1 = n
    · simp [setTrue, lookupIsSet, alLookup, h]
    · simp [setTrue, lookupIsSet, alLookup, h]
      exact ih

theorem lookup_setTrue_ne (m : IsSetMap) (k n : Str) (h : k ≠ n) :
    lookupIsSet (setTrue m k) n = lookupIsSet m n := by
  induction m with
  | nil => simp [setTrue]
  | cons e rest ih =>
    by_cases he : e.1 = k
    · simp [setTrue, lookupIsSet, alLookup, he, h]
    · by_cases hn : e.1 = n
      · simp [setTrue, lookupIsSet, alLookup, he, hn, Ne.symm h]
      · simp only [setTrue, lookupIsSet, alLookup, if_neg he, if_neg hn]
        exact ih

theorem lookup_initializeIsSet (st : RecordState) (n : Str)
    (h : n ∈ st.map (fun fv => fv.1.name)) :
    lookupIsSet (initializeIsSet st) n = some false := by
  induction st with
  | nil => simp at h
  | cons fv rest ih =>
    simp only [List.map_cons, List.mem_cons] at h
    by_cases he : fv.1.name = n
    · simp [initializeIsSet, lookupIsSet, alLookup, he]
    · have hr : n ∈ rest.map (fun fv => fv.1.name) := by
        rcases h with h | h
        · exact absurd h.symm he
        · exact h
      simp only [initializeIsSet, List.map_cons, lookupIsSet, alLookup, he, if_false]
      exact ih hr

/-! ### Generic lemmas about the shared pass shape -/

theorem setFields_ok_fst
    (step : ConfigField → Value → IsSetMap → Except LoadErr (Value × IsSetMap)) :
    ∀ (st : RecordState) (m : IsSetMap) (st2 : RecordState) (m2 : IsSetMap),
      setFields step st m = .ok (st2, m2) → st2.map Prod.fst = st.map Prod.fst := by
  intro st
  induction st with
  | nil =>
    intro m st2 m2 h
    simp only [setFields, Except.ok.injEq, Prod.mk.injEq] at h
    simp [← h.1]
  | cons fv rest ih =>
    intro m st2 m2 h
    simp only [setFields] at h
    split at h
    · simp at h
    · rename_i vm heq
      split at h
      · simp at h
      · rename_i rm heq2
        simp only [Except.ok.injEq, Prod.mk.injEq] at h
        obtain ⟨h1, h2⟩ := h
        subst h1
        simp only [List.map_cons]
        exact congrArg (fv.1 :: ·) (ih _ _ _ heq2)

theorem setFields_ok_length
    (step : ConfigField → Value → IsSetMap → Except LoadErr (Value × IsSetMap))
    (st : RecordState) (m : IsSetMap) (st2 : RecordState) (m2 : IsSetMap)
    (h : setFields step st m = .ok (st2, m2)) : st2.length = st.length := by
  have := congrArg List.length (setFields_ok_fst step st m st2 m2 h)
  simpa using this

theorem setFields_ok_val (src : ConfigField → Option Str) :
    ∀ (st : RecordState) (m : IsSetMap) (st2 : RecordState) (m2 : IsSetMap),
      setFields (srcStep src) st m = .ok (st2, m2) →
      ∀ (i : Nat) (hi : i < st.length) (hi2 : i < st2.length),
        st2[i].1 = st[i].1 ∧
        (src st[i].1 = none → st2[i].2 = st[i].2) ∧
        ∀ s : Str, src st[i].1 = some s → setFieldByKind st[i].1 s = .ok st2[i].2 := by
  intro st
  induction st with
  | nil => intro m st2 m2 h i hi; exact absurd hi (by simp)
  | cons fv rest ih =>
    intro m st2 m2 h i hi hi2
    simp only [setFields] at h
    split at h
    · simp at h
    · rename_i vm heq
      split at h
      · simp at h
      · rename_i rm heq2
        simp only [Except.ok.injEq, Prod.mk.injEq] at h
        obtain ⟨h1, h2⟩ := h
        subst h1
        cases i with
        | zero =>
          simp only [List.getElem_cons_zero]
          unfold srcStep at heq
          split at heq
          · rename_i hsrc
            simp only [Except.ok.injEq] at heq
            refine ⟨by trivial, ?_, ?_⟩
            · intro _
              show vm.1 = fv.2
              rw [← heq]
            · intro s hs
              rw [hsrc] at hs
              cases hs
          · rename_i s0 hsrc
            split at heq
            · simp at heq
            · rename_i v2 hsfb
              simp only [Except.ok.injEq] at heq
              refine ⟨by trivial, ?_, ?_⟩
              · intro h0
                rw [hsrc] at h0
                cases h0
              · intro s hs
                rw [hsrc] at hs
                injection hs with hss
                subst hss
                show setFieldByKind fv.1 s0 = .ok vm.1
                rw [hsfb, ← heq]
        | succ j =>
          have hj : j < rest.length := by
            simp only [List.length_cons] at hi
            omega
          have hj2 : j < rm.1.length := by
            simp only [List.length_cons] at hi2
            omega
          simp only [List.getElem_cons_succ]
          exact ih _ _ _ heq2 j hj hj2

theorem setFields_isSet (src : ConfigField → Option Str) :
    ∀ (st : RecordState) (m : IsSetMap) (st2 : RecordState) (m2 : IsSetMap),
      setFields (srcStep src) st m = .ok (st2, m2) →
      ∀ n : Str,
        lookupIsSet m2 n =
          if ((st.map Prod.fst).any fun g => decide (g.name = n) && (src g).isSome) = true then
            (lookupIsSet m n).map (fun _ => true)
          else lookupIsSet m n := by
  intro st
  induction st with
  | nil =>
    intro m st2 m2 h n
    simp only [setFields, Except.ok.injEq, Prod.mk.injEq] at h
    simp [← h.2]
  | cons fv rest ih =>
    intro m st2 m2 h n
    simp only [setFields] at h
    split at h
    · simp at h
    · rename_i vm heq
      split at h
      · simp at h
      · rename_i rm heq2
        simp only [Except.ok.injEq, Prod.mk.injEq] at h
        obtain ⟨h1, h2⟩ := h
        subst h2
        have ihr := ih vm.2 rm.1 rm.2 heq2 n
        unfold srcStep at heq
        split at heq
        · rename_i hsrc
          simp only [Except.ok.injEq] at heq
          have hm : vm.2 = m := by rw [← heq]
          rw [hm] at ihr
          simp only [List.map_cons, List.any_cons, hsrc, Option.isSome_none,
            Bool.and_false, Bool.false_or]
          exact ihr
        · rename_i s hsrc
          split at heq
          · simp at heq
          · rename_i v2 hsfb
            simp only [Except.ok.injEq] at heq
            have hm : vm.2 = setTrue m fv.1.name := by rw [← heq]
            rw [hm] at ihr
            simp only [List.map_cons, List.any_cons, hsrc, Option.isSome_some,
              Bool.and_true]
            by_cases hn : fv.1.name = n
            · subst hn
              rw [ihr, lookup_setTrue_self]
              cases hrest : ((rest.map Prod.fst).any fun g =>
                  decide (g.name = fv.1.name) && (src g).isSome) <;>
                cases hlk : lookupIsSet m fv.1.name <;>
                  simp [hrest, hlk]
            · have hd : decide (fv.1.name = n) = false := by simp [hn]
              rw [ihr, lookup_setTrue_ne m fv.1.name n hn, hd, Bool.false_or]

theorem setFields_src_none (src : ConfigField → Option Str)
    (hsrc : ∀ f : ConfigField, src f = none) :
    ∀ (st : RecordState) (m : IsSetMap), setFields (srcStep src) st m = .ok (st, m) := by
  intro st
  induction st with
  | nil => intro m; rfl
  | cons fv rest ih =>
    intro m
    simp only [setFields, srcStep, hsrc fv.1]
    rw [ih m]

theorem fileSrc_nil_none (f : ConfigField) : fileSrc [] f = none := by
  simp [fileSrc, alLookup]

theorem loadFromFile_eq (st : RecordState) (fsrc : FileSrc) (m : IsSetMap)
    (content : FileMap) (hfm : effFileMap fsrc = .ok content) :
    loadFromFile st fsrc m = setFields (srcStep (fileSrc content)) st m := by
  cases fsrc with
  | noPath =>
    simp only [effFileMap, Except.ok.injEq] at hfm
    subst hfm
    exact (setFields_src_none _ fileSrc_nil_none st m).symm
  | notFound =>
    simp only [effFileMap, Except.ok.injEq] at hfm
    subst hfm
    exact (setFields_src_none _ fileSrc_nil_none st m).symm
  | ioError => simp [effFileMap] at hfm
  | found lines =>
    simp only [effFileMap] at hfm
    simp only [loadFromFile, hfm]

theorem Load_ok_decompose (st : RecordState) (fsrc : FileSrc) (env : Env)
    (args : List Str) (st4 : RecordState) (m4 : IsSetMap)
    (h : Load st fsrc env args = .ok (st4, m4)) :
    ∃ sm1 sm2 sm3 : RecordState × IsSetMap,
      setDefault st (initializeIsSet st) = .ok sm1 ∧
      loadFromFile sm1.1 fsrc sm1.2 = .ok sm2 ∧
      loadFromEnv sm2.1 env sm2.2 = .ok sm3 ∧
      loadFromArgs sm3.1 args sm3.2 = .ok (st4, m4) ∧
      checkRequiredAndDepends (st4.map Prod.fst) m4 = none := by
  unfold Load at h
  split at h
  · simp at h
  rename_i sm1 h1
  split at h
  · simp at h
  rename_i sm2 h2
  split at h
  · simp at h
  rename_i sm3 h3
  split at h
  · simp at h
  rename_i sm4 h4
  split at h
  · simp at h
  rename_i hchk
  simp only [Except.ok.injEq] at h
  subst h
  exact ⟨sm1, sm2, sm3, h1, h2, h3, h4, hchk⟩

theorem any_name_notin (p : ConfigField → Bool) (nm : Str) :
    ∀ fs : List ConfigField, nm ∉ fs.map (fun g => g.name) →
      (fs.any fun g => decide (g.name = nm) && p g) = false := by
  intro fs
  induction fs with
  | nil => simp
  | cons f rest ih =>
    intro hno
    simp only [List.map_cons, List.mem_cons, not_or] at hno
    obtain ⟨h1, h2⟩ := hno
    simp only [List.any_cons, ih h2, Bool.or_false]
    simp [Ne.symm h1]

theorem any_name_nodup (p : ConfigField → Bool) :
    ∀ (fs : List ConfigField), (fs.map (fun g => g.name)).Nodup →
      ∀ (i : Nat) (hi : i < fs.length),
        (fs.any fun g => decide (g.name = fs[i].name) && p g) = p fs[i] := by
  intro fs
  induction fs with
  | nil => intro _ i hi; exact absurd hi (by simp)
  | cons f rest ih =>
    intro hnd i hi
    simp only [List.map_cons, List.nodup_cons] at hnd
    obtain ⟨hnotin, hnd2⟩ := hnd
    cases i with
    | zero =>
      simp only [List.getElem_cons_zero, List.any_cons, decide_True, Bool.true_and]
      rw [any_name_notin p f.name rest hnotin]
      simp
    | succ j =>
      have hj : j < rest.length := by
        simp only [List.length_cons] at hi
        omega
      have hmem : rest[j].name ∈ rest.map (fun g => g.name) :=
        List.mem_map_of_mem _ (List.getElem_mem hj)
      have hne : f.name ≠ rest[j].name := fun hEq => hnotin (hEq ▸ hmem)
      have hd : decide (f.name = rest[j].name) = false := by simp [hne]
      simp only [List.getElem_cons_succ, List.any_cons, hd, Bool.false_and, Bool.false_or]
      exact ih hnd2 j hj


/-- C4: the file pass is claimed total on file content — every line is
either skipped or yields a key/value entry, never a runtime abort,
including lines whose trimmed value is a single quote character such as
key:".  The code in fact hits a slice-bounds runtime panic on exactly
that line (value[1:0] after the quote guard passes), modelled as
LineResult.crash / LoadErr.runtimePanic. -/
theorem C4_file_pass_not_total :
    parseLine (str "key:" ++ [dquote]) = .crash ∧
    buildFileContent [str "key:" ++ [dquote]] = .error .runtimePanic :=
  ⟨rfl, rfl⟩

/-- C5: file parsing — first-colon split with trimming, one-layer quote
strip, silent skip of colon-free lines and last-occurrence-wins all hold
on ordinary lines (concrete instances below), but the claim fails as a
universal statement: a line whose trimmed value is a single quote
character (here key:') makes the parser abort with a runtime panic
instead of producing an entry. -/
theorem C5_parse_algorithm_with_crash :
    parseLine (str "no colon line") = .skip ∧
    parseLine (str "  key : 'quoted'  ") = .entry (str "key") (str "quoted") ∧
    parseLine (str "k:" ++ [dquote] ++ str "ab" ++ [dquote]) = .entry (str "k") (str "ab") ∧
    parseLine (str "a:b:c") = .entry (str "a") (str "b:c") ∧
    buildFileContent [str "dup: 1", str "other: x", str "dup: 2"]
      = .ok [(str "dup", str "2"), (str "other", str "x")] ∧
    parseLine (str "key:" ++ [squote]) = .crash :=
  ⟨rfl, rfl, rfl, rfl, rfl, rfl⟩

/-- C7: file-open error taxonomy — a missing file (and an empty path)
make the file pass a no-op and Load behaves exactly as with no file;
any other open/read failure is returned and aborts the call. -/
theorem C7_file_error_taxonomy :
    (∀ (st : RecordState) (m : IsSetMap),
        loadFromFile st FileSrc.notFound m = .ok (st, m)) ∧
    (∀ (st : RecordState) (m : IsSetMap),
        loadFromFile st FileSrc.noPath m = .ok (st, m)) ∧
    (∀ (st : RecordState) (env : Env) (args : List Str),
        Load st FileSrc.notFound env args = Load st FileSrc.noPath env args) ∧
    (∀ (st : RecordState) (m : IsSetMap),
        loadFromFile st FileSrc.ioError m = .error .fileErr) ∧
    (∀ (st : RecordState) (env : Env) (args : List Str) (sm1 : RecordState × IsSetMap),
        setDefault st (initializeIsSet st) = .ok sm1 →
        Load st FileSrc.ioError env args = .error .fileErr) := by
  refine ⟨fun st m => rfl, fun st m => rfl, ?_, fun st m => rfl, ?_⟩
  · intro st env args
    cases h1 : setDefault st (initializeIsSet st) with
    | error e => simp [Load, h1]
    | ok sm1 => simp [Load, h1, loadFromFile]
  · intro st env args sm1 h1
    simp [Load, h1, loadFromFile]

/-- C7 witness: a concrete record hitting the I/O-error abort. -/
theorem C7_file_error_taxonomy_witness :
    Load [] FileSrc.ioError [] [] = .error .fileErr :=
  C7_file_error_taxonomy.2.2.2.2 [] [] [] ([], []) rfl



theorem checkDepends_none_iff (m : IsSetMap) :
    ∀ ds : List Str, checkDepends m ds = none ↔ ∀ d ∈ ds, unsetIn m d = false := by
  intro ds
  induction ds with
  | nil => simp [checkDepends]
  | cons d rest ih =>
    by_cases hd : unsetIn m d = true
    · simp [checkDepends, hd]
    · have hdf : unsetIn m d = false := by
        cases h : unsetIn m d
        · rfl
        · exact absurd h hd
      simp [checkDepends, hdf, ih]

theorem checkDepends_some (m : IsSetMap) :
    ∀ (ds : List Str) (e : LoadErr), checkDepends m ds = some e →
      ∃ d ∈ ds, e = .dependsNotSet d ∧ unsetIn m d = true := by
  intro ds
  induction ds with
  | nil => intro e h; simp [checkDepends] at h
  | cons d rest ih =>
    intro e h
    by_cases hd : unsetIn m d = true
    · rw [checkDepends, if_pos hd] at h
      simp only [Option.some.injEq] at h
      exact ⟨d, by simp, h.symm, hd⟩
    · rw [checkDepends, if_neg hd] at h
      obtain ⟨d2, hd2, he, hu⟩ := ih e h
      exact ⟨d2, by simp [hd2], he, hu⟩

theorem checkRAD_cons (f : ConfigField) (rest : List ConfigField) (m : IsSetMap) :
    checkRequiredAndDepends (f :: rest) m =
      match fieldViolation m f with
      | some e => some e
      | none => checkRequiredAndDepends rest m := by
  by_cases h1 : f.requiredTag = str "true" ∧ unsetIn m f.name = true
  · simp [checkRequiredAndDepends, fieldViolation, h1]
  · by_cases h2 : f.dependsTag = []
    · simp [checkRequiredAndDepends, fieldViolation, h1, h2]
    · simp only [checkRequiredAndDepends, fieldViolation, if_neg h1, if_neg h2]

theorem fieldViolation_none_iff (m : IsSetMap) (f : ConfigField) :
    fieldViolation m f = none ↔
      (f.requiredTag = str "true" → unsetIn m f.name = false) ∧
      (f.dependsTag ≠ [] → ∀ d ∈ depList f, unsetIn m d = false) := by
  by_cases hr : f.requiredTag = str "true" ∧ unsetIn m f.name = true
  · simp only [fieldViolation, if_pos hr]
    simp [hr.1, hr.2]
  · have hc1 : f.requiredTag = str "true" → unsetIn m f.name = false := by
      intro h
      cases hu : unsetIn m f.name
      · rfl
      · exact absurd ⟨h, hu⟩ hr
    simp only [fieldViolation, if_neg hr]
    by_cases h2 : f.dependsTag = []
    · simp only [if_pos h2]
      constructor
      · intro _
        exact ⟨hc1, fun hne => absurd h2 hne⟩
      · intro _
        trivial
    · simp only [if_neg h2]
      rw [checkDepends_none_iff]
      constructor
      · intro hall
        exact ⟨hc1, fun _ => hall⟩
      · intro hh
        exact hh.2 h2

theorem checkRAD_none_iff (m : IsSetMap) :
    ∀ fields : List ConfigField,
      checkRequiredAndDepends fields m = none ↔
        ∀ f ∈ fields,
          (f.requiredTag = str "true" → unsetIn m f.name = false) ∧
          (f.dependsTag ≠ [] → ∀ d ∈ depList f, unsetIn m d = false) := by
  intro fields
  induction fields with
  | nil => simp [checkRequiredAndDepends]
  | cons f rest ih =>
    rw [checkRAD_cons]
    cases hfv : fieldViolation m f with
    | some e =>
      constructor
      · intro h; exact absurd h (by simp)
      · intro hall
        have hnone := (fieldViolation_none_iff m f).mpr (hall f (by simp))
        rw [hfv] at hnone
        exact absurd hnone (by simp)
    | none =>
      rw [ih]
      constructor
      · intro hall g hg
        rcases List.mem_cons.mp hg with hgf | hg2
        · subst hgf
          exact (fieldViolation_none_iff m g).mp hfv
        · exact hall g hg2
      · intro hall g hg
        exact hall g (List.mem_cons_of_mem f hg)

theorem checkRAD_required_sound (m : IsSetMap) :
    ∀ (fields : List ConfigField) (n : Str),
      checkRequiredAndDepends fields m = some (.requiredNotSet n) →
        ∃ f ∈ fields, f.name = n ∧ f.requiredTag = str "true" ∧ unsetIn m n = true := by
  intro fields
  induction fields with
  | nil => intro n h; simp [checkRequiredAndDepends] at h
  | cons f rest ih =>
    intro n h
    rw [checkRAD_cons] at h
    cases hfv : fieldViolation m f with
    | some e =>
      rw [hfv] at h
      simp only [Option.some.injEq] at h
      subst h
      by_cases hr : f.requiredTag = str "true" ∧ unsetIn m f.name = true
      · rw [fieldViolation, if_pos hr] at hfv
        simp only [Option.some.injEq, LoadErr.requiredNotSet.injEq] at hfv
        exact ⟨f, by simp, hfv, hr.1, hfv ▸ hr.2⟩
      · rw [fieldViolation, if_neg hr] at hfv
        by_cases h2 : f.dependsTag = []
        · rw [if_pos h2] at hfv
          exact absurd hfv (by simp)
        · rw [if_neg h2] at hfv
          obtain ⟨d, _, he, _⟩ := checkDepends_some m _ _ hfv
          exact absurd he (by simp)
    | none =>
      rw [hfv] at h
      obtain ⟨g, hg, hprops⟩ := ih n h
      exact ⟨g, List.mem_cons_of_mem f hg, hprops⟩

theorem checkRAD_depends_sound (m : IsSetMap) :
    ∀ (fields : List ConfigField) (d : Str),
      checkRequiredAndDepends fields m = some (.dependsNotSet d) →
        unsetIn m d = true ∧ ∃ f ∈ fields, f.dependsTag ≠ [] ∧ d ∈ depList f := by
  intro fields
  induction fields with
  | nil => intro d h; simp [checkRequiredAndDepends] at h
  | cons f rest ih =>
    intro d h
    rw [checkRAD_cons] at h
    cases hfv : fieldViolation m f with
    | some e =>
      rw [hfv] at h
      simp only [Option.some.injEq] at h
      subst h
      by_cases hr : f.requiredTag = str "true" ∧ unsetIn m f.name = true
      · rw [fieldViolation, if_pos hr] at hfv
        simp only [Option.some.injEq] at hfv
        exact absurd hfv (by simp)
      · rw [fieldViolation, if_neg hr] at hfv
        by_cases h2 : f.dependsTag = []
        · rw [if_pos h2] at hfv
          exact absurd hfv (by simp)
        · rw [if_neg h2] at hfv
          obtain ⟨d2, hd2, he, hu⟩ := checkDepends_some m _ _ hfv
          simp only [LoadErr.dependsNotSet.injEq] at he
          subst he
          exact ⟨hu, f, by simp, h2, hd2⟩
    | none =>
      rw [hfv] at h
      obtain ⟨hu, g, hg, hprops⟩ := ih d h
      exact ⟨hu, g, List.mem_cons_of_mem f hg, hprops⟩

theorem checkRAD_first (m : IsSetMap) :
    ∀ (pre : List ConfigField) (f : ConfigField) (post : List ConfigField),
      (∀ g ∈ pre, fieldViolation m g = none) → fieldViolation m f ≠ none →
      checkRequiredAndDepends (pre ++ f :: post) m = fieldViolation m f := by
  intro pre
  induction pre with
  | nil =>
    intro f post _ hf
    rw [List.nil_append, checkRAD_cons]
    cases hfv : fieldViolation m f with
    | some e => rfl
    | none => exact absurd hfv hf
  | cons g pre2 ih =>
    intro f post hpre hf
    rw [List.cons_append, checkRAD_cons]
    have hg := hpre g (by simp)
    simp only [hg]
    exact ih f post (fun g2 hg2 => hpre g2 (by simp [hg2])) hf

theorem checkDepends_first (m : IsSetMap) :
    ∀ (preD : List Str) (d : Str) (postD : List Str),
      (∀ d2 ∈ preD, unsetIn m d2 = false) → unsetIn m d = true →
      checkDepends m (preD ++ d :: postD) = some (.dependsNotSet d) := by
  intro preD
  induction preD with
  | nil =>
    intro d postD _ hd
    simp [checkDepends, hd]
  | cons d2 rest ih =>
    intro d postD hpre hd
    have h2 : unsetIn m d2 = false := hpre d2 (by simp)
    rw [List.cons_append, checkDepends, if_neg (by simp [h2])]
    exact ih d postD (fun x hx => hpre x (by simp [hx])) hd

/-- C3: the validation pass scans fields in declared order and returns
the first violation only: it returns none exactly when every field
satisfies its required flag and its dependency list; a RequiredNotSetError
names a field that is required:"true" with an absent-or-false tracking
entry; a DependsNotSetError names the missing dependency itself (not the
declaring field); the first field with a violation (required checked
before its dependencies, dependencies in list order) determines the
result; and Load propagates the validation verdict. -/
theorem C3_validation (m : IsSetMap) :
    (∀ fields : List ConfigField,
      checkRequiredAndDepends fields m = none ↔
        ∀ f ∈ fields,
          (f.requiredTag = str "true" → unsetIn m f.name = false) ∧
          (f.dependsTag ≠ [] → ∀ d ∈ depList f, unsetIn m d = false)) ∧
    (∀ (fields : List ConfigField) (n : Str),
      checkRequiredAndDepends fields m = some (.requiredNotSet n) →
        ∃ f ∈ fields, f.name = n ∧ f.requiredTag = str "true" ∧ unsetIn m n = true) ∧
    (∀ (fields : List ConfigField) (d : Str),
      checkRequiredAndDepends fields m = some (.dependsNotSet d) →
        unsetIn m d = true ∧ ∃ f ∈ fields, f.dependsTag ≠ [] ∧ d ∈ depList f) ∧
    (∀ (pre : List ConfigField) (f : ConfigField) (post : List ConfigField),
      (∀ g ∈ pre, fieldViolation m g = none) → fieldViolation m f ≠ none →
      checkRequiredAndDepends (pre ++ f :: post) m = fieldViolation m f) ∧
    (∀ (preD : List Str) (d : Str) (postD : List Str),
      (∀ d2 ∈ preD, unsetIn m d2 = false) → unsetIn m d = true →
      checkDepends m (preD ++ d :: postD) = some (.dependsNotSet d)) ∧
    (∀ (st : RecordState) (fsrc : FileSrc) (env : Env) (args : List Str)
        (st4 : RecordState) (m4 : IsSetMap),
      Load st fsrc env args = .ok (st4, m4) →
      checkRequiredAndDepends (st4.map Prod.fst) m4 = none) ∧
    (∀ (st : RecordState) (fsrc : FileSrc) (env : Env) (args : List Str)
        (sm1 sm2 sm3 sm4 : RecordState × IsSetMap) (e : LoadErr),
      setDefault st (initializeIsSet st) = .ok sm1 →
      loadFromFile sm1.1 fsrc sm1.2 = .ok sm2 →
      loadFromEnv sm2.1 env sm2.2 = .ok sm3 →
      loadFromArgs sm3.1 args sm3.2 = .ok sm4 →
      checkRequiredAndDepends (sm4.1.map Prod.fst) sm4.2 = some e →
      Load st fsrc env args = .error e) := by
  refine ⟨checkRAD_none_iff m, checkRAD_required_sound m, checkRAD_depends_sound m,
    checkRAD_first m, checkDepends_first m, ?_, ?_⟩
  · intro st fsrc env args st4 m4 h
    obtain ⟨_, _, _, _, _, _, _, hchk⟩ := Load_ok_decompose st fsrc env args st4 m4 h
    exact hchk
  · intro st fsrc env args sm1 sm2 sm3 sm4 e h1 h2 h3 h4 h5
    simp [Load, h1, h2, h3, h4, h5]

/-- C3 witness: a required field left unset fails naming the field; an
unmet dependency fails naming the missing dependency, not the declaring
field. -/
theorem C3_validation_witness :
    checkRequiredAndDepends
        [⟨str "Name", TypeKind.string, str "name", [], [], [], str "true", []⟩]
        [(str "Name", false)]
      = some (.requiredNotSet (str "Name")) ∧
    checkRequiredAndDepends
        [⟨str "DField", TypeKind.string, [], [], [], [], [], str "Other"⟩]
        [(str "DField", true)]
      = some (.dependsNotSet (str "Other")) :=
  ⟨(C3_validation [(str "Name", false)]).2.2.2.1
      [] ⟨str "Name", TypeKind.string, str "name", [], [], [], str "true", []⟩ []
      (by simp) (by decide),
   (C3_validation [(str "DField", true)]).2.2.2.1
      [] ⟨str "DField", TypeKind.string, [], [], [], [], [], str "Other"⟩ []
      (by simp) (by decide)⟩



theorem trimDashes_replicate (name : Str) (h : startsWithDash name = false) :
    ∀ k : Nat, trimDashes (List.replicate k '-' ++ name) = name := by
  intro k
  induction k with
  | zero =>
    simp only [List.replicate, List.nil_append]
    cases name with
    | nil => rfl
    | cons c cs =>
      simp only [startsWithDash] at h
      simp [trimDashes, List.dropWhile_cons, h]
  | succ k2 ih =>
    simp only [List.replicate_succ, List.cons_append]
    simp only [trimDashes, List.dropWhile_cons]
    simp only [decide_True, if_true]
    exact ih

theorem eqIdx_no_eq (s : Str) (h : '=' ∉ s) : eqIdx s = none := by
  induction s with
  | nil => rfl
  | cons c cs ih =>
    simp only [List.mem_cons, not_or] at h
    simp [eqIdx, Ne.symm h.1, ih h.2]

theorem eqIdx_append_eq (name : Str) (t : Str) (h : '=' ∉ name) :
    eqIdx (name ++ '=' :: t) = some name.length := by
  induction name with
  | nil => simp [eqIdx]
  | cons c cs ih =>
    simp only [List.mem_cons, not_or] at h
    simp [eqIdx, Ne.symm h.1, ih h.2]

theorem getArgScan_no_match (argName : Str) (b : Bool) :
    ∀ pre rest : List Str, (∀ a ∈ pre, tokMatches argName a = false) →
      getArgScan argName b (pre ++ rest) = getArgScan argName b rest := by
  intro pre
  induction pre with
  | nil => intro rest _; rfl
  | cons a pre2 ih =>
    intro rest hno
    have ha := hno a (by simp)
    have hrest : ∀ a2 ∈ pre2, tokMatches argName a2 = false :=
      fun a2 ha2 => hno a2 (by simp [ha2])
    simp only [List.cons_append]
    cases he : eqIdx (trimDashes a) with
    | none =>
      have hne : ¬ trimDashes a = argName := by
        simp only [tokMatches, he] at ha
        exact of_decide_eq_false ha
      simp only [getArgScan, he, if_neg hne]
      exact ih rest hrest
    | some idx =>
      cases idx with
      | zero =>
        have hne : ¬ trimDashes a = argName := by
          simp only [tokMatches, he] at ha
          exact of_decide_eq_false ha
        simp only [getArgScan, he, if_neg hne]
        exact ih rest hrest
      | succ idx1 =>
        have hne : ¬ (trimDashes a).take (idx1 + 1) = argName := by
          simp only [tokMatches, he] at ha
          exact of_decide_eq_false ha
        simp only [getArgScan, he, if_neg hne]
        exact ih rest hrest

/-- C6: an argument token carrying an empty value is indistinguishable
from no match — the scanner returns the empty string both for
-name=<nothing> and for -name followed by the empty-string token (even
for boolean fields, so such a flag does not resolve to true), and an
empty scanner result makes the argument pass leave the field's value and
its set-tracking entry untouched, so the empty string can never be
assigned through the argument pass. -/
theorem C6_empty_arg_value :
    (∀ (st : RecordState) (args : List Str) (m : IsSetMap)
        (st2 : RecordState) (m2 : IsSetMap),
      loadFromArgs st args m = .ok (st2, m2) →
      ∀ (i : Nat) (hi : i < st.length) (hi2 : i < st2.length),
        getArgValue args (getTagOrDefault st[i].1)
            (decide (st[i].1.kind = TypeKind.bool)) = [] →
        st2[i].2 = st[i].2) ∧
    (∀ (st : RecordState) (args : List Str) (m : IsSetMap)
        (st2 : RecordState) (m2 : IsSetMap),
      loadFromArgs st args m = .ok (st2, m2) →
      (st.map (fun fv => fv.1.name)).Nodup →
      ∀ (i : Nat) (hi : i < st.length),
        getArgValue args (getTagOrDefault st[i].1)
            (decide (st[i].1.kind = TypeKind.bool)) = [] →
        lookupIsSet m2 (st[i].1.name) = lookupIsSet m (st[i].1.name)) ∧
    (∀ (p name : Str) (b : Bool) (k : Nat),
      name ≠ [] → startsWithDash name = false → '=' ∉ name →
      getArgValue (p :: [List.replicate k '-' ++ name ++ ['=']]) name b = []) ∧
    (∀ (p name : Str) (b : Bool) (k : Nat),
      name ≠ [] → startsWithDash name = false → '=' ∉ name →
      getArgValue (p :: [List.replicate k '-' ++ name, []]) name b = []) := by
  refine ⟨?_, ?_, ?_, ?_⟩
  · intro st args m st2 m2 h i hi hi2 hempty
    have hsrc : argSrc args st[i].1 = none := by
      simp [argSrc, hempty]
    exact ((setFields_ok_val (argSrc args) st m st2 m2 h i hi hi2).2.1) hsrc
  · intro st args m st2 m2 h hnodup i hi hempty
    have hsrc : argSrc args st[i].1 = none := by
      simp [argSrc, hempty]
    have hnd2 : ((st.map Prod.fst).map (fun g => g.name)).Nodup := by
      rw [List.map_map]
      exact hnodup
    have hi2 : i < (st.map Prod.fst).length := by simpa using hi
    have hfs : (st.map Prod.fst)[i] = st[i].1 := by
      simp
    have hany := any_name_nodup (fun g => (argSrc args g).isSome) (st.map Prod.fst) hnd2 i hi2
    rw [hfs] at hany
    have hs := setFields_isSet (argSrc args) st m st2 m2 h (st[i].1.name)
    rw [hany, hsrc] at hs
    simpa using hs
  · intro p name b k h1 h2 h3
    obtain ⟨c, cs, rfl⟩ : ∃ c cs, name = c :: cs := by
      cases name with
      | nil => exact absurd rfl h1
      | cons c cs => exact ⟨c, cs, rfl⟩
    show getArgScan (c :: cs) b [List.replicate k '-' ++ (c :: cs) ++ ['=']] = []
    rw [List.append_assoc]
    have hsw : startsWithDash ((c :: cs) ++ ['=']) = false := h2
    have htd := trimDashes_replicate ((c :: cs) ++ ['=']) hsw k
    have hidx : eqIdx ((c :: cs) ++ ['=']) = some (c :: cs).length :=
      eqIdx_append_eq (c :: cs) [] h3
    simp only [getArgScan, htd, hidx, List.length_cons]
    rw [if_pos]
    · have hlen : ((c :: cs) ++ ['=']).length ≤ cs.length + 1 + 1 := by
        simp
      rw [List.drop_eq_nil_of_le hlen]
    · have : (c :: cs).length = cs.length + 1 := by simp
      rw [← this, List.take_left]
  · intro p name b k h1 h2 h3
    obtain ⟨c, cs, rfl⟩ : ∃ c cs, name = c :: cs := by
      cases name with
      | nil => exact absurd rfl h1
      | cons c cs => exact ⟨c, cs, rfl⟩
    show getArgScan (c :: cs) b [List.replicate k '-' ++ (c :: cs), []] = []
    have htd := trimDashes_replicate (c :: cs) h2 k
    have hidx : eqIdx (c :: cs) = none := eqIdx_no_eq (c :: cs) h3
    simp only [getArgScan, htd, hidx, if_pos, startsWithDash]
    rfl

/-- C6 witness: the two empty-value token forms at a concrete name, and
the untouched-field consequence on a concrete one-field record. -/
theorem C6_empty_arg_value_witness :
    getArgValue [str "mage", str "-count="] (str "count") false = [] ∧
    getArgValue [str "mage", str "-count", []] (str "count") true = [] ∧
    getArgValue [str "mage", str "--count="] (str "count") false = [] :=
  ⟨C6_empty_arg_value.2.2.1 (str "mage") (str "count") false 1
      (by decide) (by decide) (by decide),
   C6_empty_arg_value.2.2.2 (str "mage") (str "count") true 1
      (by decide) (by decide) (by decide),
   C6_empty_arg_value.2.2.1 (str "mage") (str "count") false 2
      (by decide) (by decide) (by decide)⟩



/-- C8: a boolean field whose effective argument name occurs as a
standalone token (any number of leading dashes) with no following
non-dash token — because it is the last argument or because the next
token itself begins with a dash — receives the literal text "true" from
the scanner, so after the argument pass the field holds true and is
marked set. -/
theorem C8_bool_bare_flag (p name : Str) (pre post : List Str) (k : Nat)
    (args : List Str)
    (hargs : args = p :: (pre ++ (List.replicate k '-' ++ name) :: post))
    (hpre : ∀ a ∈ pre, tokMatches name a = false)
    (h2 : startsWithDash name = false) (h3 : '=' ∉ name)
    (hpost : post = [] ∨ ∃ t ts, post = t :: ts ∧ startsWithDash t = true) :
    getArgValue args name true = str "true" ∧
    ∀ (st : RecordState) (m : IsSetMap) (st2 : RecordState) (m2 : IsSetMap),
      loadFromArgs st args m = .ok (st2, m2) →
      ∀ (i : Nat) (hi : i < st.length) (hi2 : i < st2.length),
        st[i].1.kind = TypeKind.bool → getTagOrDefault st[i].1 = name →
        st2[i].2 = Value.vBool true ∧
        ((st.map (fun fv => fv.1.name)).Nodup →
          (lookupIsSet m (st[i].1.name)).isSome = true →
          lookupIsSet m2 (st[i].1.name) = some true) := by
  subst hargs
  have hval : getArgValue
      (p :: (pre ++ (List.replicate k '-' ++ name) :: post)) name true = str "true" := by
    show getArgScan name true (pre ++ (List.replicate k '-' ++ name) :: post) = str "true"
    rw [getArgScan_no_match name true pre _ hpre]
    have htd := trimDashes_replicate name h2 k
    have hidx : eqIdx name = none := eqIdx_no_eq name h3
    rcases hpost with rfl | ⟨t, ts, rfl, hdash⟩
    · simp [getArgScan, htd, hidx]
    · simp [getArgScan, htd, hidx, hdash]
  refine ⟨hval, ?_⟩
  intro st m st2 m2 h i hi hi2 hkind htag
  have hne : str "true" ≠ ([] : Str) := by decide
  have hsrc : argSrc (p :: (pre ++ (List.replicate k '-' ++ name) :: post)) st[i].1
      = some (str "true") := by
    simp [argSrc, htag, hkind, hval, hne]
  have v4 := setFields_ok_val (argSrc (p :: (pre ++ (List.replicate k '-' ++ name) :: post)))
    st m st2 m2 h i hi hi2
  have hsfb := v4.2.2 (str "true") hsrc
  have hconv : setFieldByKind st[i].1 (str "true") = .ok (Value.vBool true) := by
    simp only [setFieldByKind, hkind]
    rfl
  rw [hconv] at hsfb
  simp only [Except.ok.injEq] at hsfb
  refine ⟨hsfb.symm, ?_⟩
  intro hnodup hsome
  have hnd2 : ((st.map Prod.fst).map (fun g => g.name)).Nodup := by
    rw [List.map_map]
    exact hnodup
  have hi' : i < (st.map Prod.fst).length := by simpa using hi
  have hfs : (st.map Prod.fst)[i] = st[i].1 := by simp
  have hany := any_name_nodup
    (fun g => (argSrc (p :: (pre ++ (List.replicate k '-' ++ name) :: post)) g).isSome)
    (st.map Prod.fst) hnd2 i hi'
  rw [hfs] at hany
  have hs := setFields_isSet (argSrc (p :: (pre ++ (List.replicate k '-' ++ name) :: post)))
    st m st2 m2 h (st[i].1.name)
  rw [hany, hsrc] at hs
  simp only [Option.isSome_some, if_true] at hs
  cases hlk : lookupIsSet m (st[i].1.name) with
  | none =>
    rw [hlk] at hsome
    simp at hsome
  | some b =>
    rw [hlk] at hs
    simpa using hs

/-- C8 witness: a concrete boolean field passed as a bare double-dash
flag at the end of the arguments ends up true and marked set. -/
theorem C8_bool_bare_flag_witness :
    getArgValue [str "mage", str "--verbose"] (str "verbose") true = str "true" ∧
    loadFromArgs
        [(⟨str "Verbose", TypeKind.bool, str "verbose", [], [], [], [], []⟩,
          Value.vBool false)]
        [str "mage", str "--verbose"] [(str "Verbose", false)]
      = .ok ([(⟨str "Verbose", TypeKind.bool, str "verbose", [], [], [], [], []⟩,
              Value.vBool true)], [(str "Verbose", true)]) :=
  ⟨(C8_bool_bare_flag (str "mage") (str "verbose") [] [] 2
      [str "mage", str "--verbose"] (by decide) (by simp) (by decide) (by decide)
      (Or.inl rfl)).1,
   rfl⟩



theorem buildMapVal_malformed (elem : TypeKind) :
    ∀ (pre : List Str) (tok : Str) (post : List Str) (acc : List (Str × Value)),
      (∀ q ∈ pre, ∃ kv : Str × Str, splitN2 ':' q = some kv ∧
         ∃ v, parseStringToType (trimSpace kv.2) elem = .ok v) →
      splitN2 ':' tok = none →
      buildMapVal elem (pre ++ tok :: post) acc = .error (.mapFormatErr tok) := by
  intro pre
  induction pre with
  | nil =>
    intro tok post acc _ htok
    simp [buildMapVal, htok]
  | cons q pre2 ih =>
    intro tok post acc hpre htok
    obtain ⟨kv, hs, v, hv⟩ := hpre q (by simp)
    simp only [List.cons_append, buildMapVal, hs, hv]
    exact ih tok post _ (fun q2 hq2 => hpre q2 (by simp [hq2])) htok

theorem buildMapVal_preserve (elem : TypeKind) (kTr : Str) :
    ∀ (pairs : List Str) (acc entries : List (Str × Value)),
      buildMapVal elem pairs acc = .ok entries →
      (∀ q ∈ pairs, ∀ kv : Str × Str, splitN2 ':' q = some kv →
         trimSpace kv.1 ≠ kTr) →
      alLookup entries kTr = alLookup acc kTr := by
  intro pairs
  induction pairs with
  | nil =>
    intro acc entries h _
    simp only [buildMapVal, Except.ok.injEq] at h
    rw [← h]
  | cons q rest ih =>
    intro acc entries h hno
    cases hs : splitN2 ':' q with
    | none =>
      simp only [buildMapVal, hs] at h
      exact Except.noConfusion h
    | some kv =>
      cases hv : parseStringToType (trimSpace kv.2) elem with
      | error e =>
        simp only [buildMapVal, hs, hv] at h
        exact Except.noConfusion h
      | ok v =>
        simp only [buildMapVal, hs, hv] at h
        have hk := hno q (by simp) kv hs
        rw [ih _ entries h (fun q2 hq2 kv2 hs2 => hno q2 (by simp [hq2]) kv2 hs2)]
        exact alLookup_alInsert_ne acc (trimSpace kv.1) kTr v (Ne.symm hk)

theorem buildMapVal_wf_lookup (elem : TypeKind) :
    ∀ (pairs : List Str) (acc entries : List (Str × Value)),
      buildMapVal elem pairs acc = .ok entries →
      ∀ (pair : Str) (kv : Str × Str) (v : Value),
        pair ∈ pairs → splitN2 ':' pair = some kv →
        parseStringToType (trimSpace kv.2) elem = .ok v →
        (∀ q ∈ pairs, ∀ kv2 : Str × Str, splitN2 ':' q = some kv2 →
           trimSpace kv2.1 = trimSpace kv.1 → q = pair) →
        pairs.Nodup →
        alLookup entries (trimSpace kv.1) = some v := by
  intro pairs
  induction pairs with
  | nil =>
    intro acc entries h pair kv v hmem
    simp at hmem
  | cons q rest ih =>
    intro acc entries h pair kv v hmem hsplit hconv huniq hnd
    obtain ⟨hq_notin, hnd2⟩ := List.nodup_cons.mp hnd
    rcases List.mem_cons.mp hmem with rfl | hmem2
    · simp only [buildMapVal, hsplit, hconv] at h
      have hnokey : ∀ q2 ∈ rest, ∀ kv2 : Str × Str, splitN2 ':' q2 = some kv2 →
          trimSpace kv2.1 ≠ trimSpace kv.1 := by
        intro q2 hq2 kv2 hs2 heqk
        have hq2pair := huniq q2 (List.mem_cons_of_mem _ hq2) kv2 hs2 heqk
        exact hq_notin (hq2pair ▸ hq2)
      rw [buildMapVal_preserve elem (trimSpace kv.1) rest _ entries h hnokey]
      exact alLookup_alInsert_self acc (trimSpace kv.1) v
    · cases hs : splitN2 ':' q with
      | none =>
        simp only [buildMapVal, hs] at h
        exact Except.noConfusion h
      | some kvq =>
        cases hvq : parseStringToType (trimSpace kvq.2) elem with
        | error e =>
          simp only [buildMapVal, hs, hvq] at h
          exact Except.noConfusion h
        | ok vq =>
          simp only [buildMapVal, hs, hvq] at h
          exact ih _ entries h pair kv v hmem2 hsplit hconv
            (fun q2 hq2 kv2 hs2 heqk =>
              huniq q2 (List.mem_cons_of_mem _ hq2) kv2 hs2 heqk) hnd2

/-- C9: mapping conversion — the raw text splits on ',' into
pair-tokens; a pair-token with no ':' fails the whole field with
MapFormatError naming exactly that token (earlier well-formed tokens
notwithstanding); for well-formed pair-tokens the entry key is the
literal trimmed key text (not type-converted) and the entry value is the
trimmed value text converted to the element type by the scalar rule. -/
theorem C9_map_conversion (elem : TypeKind) (f : ConfigField)
    (hf : f.kind = TypeKind.kmap elem) :
    (∀ (strVal : Str) (pre : List Str) (tok : Str) (post : List Str),
      splitOnChar ',' strVal = pre ++ tok :: post →
      (∀ q ∈ pre, ∃ kv : Str × Str, splitN2 ':' q = some kv ∧
         ∃ v, parseStringToType (trimSpace kv.2) elem = .ok v) →
      splitN2 ':' tok = none →
      setFieldByKind f strVal = .error (.mapFormatErr tok)) ∧
    (∀ (strVal : Str) (entries : List (Str × Value)) (pair : Str)
        (kv : Str × Str) (v : Value),
      setFieldByKind f strVal = .ok (.vMap entries) →
      pair ∈ splitOnChar ',' strVal → splitN2 ':' pair = some kv →
      parseStringToType (trimSpace kv.2) elem = .ok v →
      (∀ q ∈ splitOnChar ',' strVal, ∀ kv2 : Str × Str, splitN2 ':' q = some kv2 →
         trimSpace kv2.1 = trimSpace kv.1 → q = pair) →
      (splitOnChar ',' strVal).Nodup →
      alLookup entries (trimSpace kv.1) = some v) := by
  constructor
  · intro strVal pre tok post hsplit hpre htok
    simp only [setFieldByKind, hf]
    rw [hsplit, buildMapVal_malformed elem pre tok post [] hpre htok]
  · intro strVal entries pair kv v hok hmem hsplit hconv huniq hnd
    simp only [setFieldByKind, hf] at hok
    cases hb : buildMapVal elem (splitOnChar ',' strVal) [] with
    | error e =>
      rw [hb] at hok
      simp at hok
    | ok entries2 =>
      rw [hb] at hok
      simp only [Except.ok.injEq, Value.vMap.injEq] at hok
      subst hok
      exact buildMapVal_wf_lookup elem _ [] entries2 hb pair kv v hmem hsplit hconv huniq hnd

/-- C9 witness: the spec's own examples — "key1,key2:2" fails with
MapFormatError naming "key1"; in "key1:1,key2:2" the key1 entry is the
trimmed literal key mapped to the converted integer 1. -/
theorem C9_map_conversion_witness :
    setFieldByKind ⟨str "IntMap", TypeKind.kmap TypeKind.int, [], [], [], [], [], []⟩
        (str "key1,key2:2")
      = .error (.mapFormatErr (str "key1")) ∧
    alLookup [(str "key1", Value.vInt 1), (str "key2", Value.vInt 2)] (str "key1")
      = some (Value.vInt 1) :=
  ⟨(C9_map_conversion TypeKind.int
      ⟨str "IntMap", TypeKind.kmap TypeKind.int, [], [], [], [], [], []⟩ rfl).1
      (str "key1,key2:2") [] (str "key1") [str "key2:2"]
      (by decide) (by simp) (by decide),
   (C9_map_conversion TypeKind.int
      ⟨str "IntMap", TypeKind.kmap TypeKind.int, [], [], [], [], [], []⟩ rfl).2
      (str "key1:1,key2:2") [(str "key1", Value.vInt 1), (str "key2", Value.vInt 2)]
      (str "key1:1") (str "key1", str "1") (Value.vInt 1)
      rfl (by decide) (by decide) rfl (by decide) (by decide)⟩



theorem Load_passes (st : RecordState) (fsrc : FileSrc) (env : Env)
    (args : List Str) (st4 : RecordState) (m4 : IsSetMap) (content : FileMap)
    (hload : Load st fsrc env args = .ok (st4, m4))
    (hfm : effFileMap fsrc = .ok content) :
    ∃ sm1 sm2 sm3 : RecordState × IsSetMap,
      setFields (srcStep defaultSrc) st (initializeIsSet st) = .ok sm1 ∧
      setFields (srcStep (fileSrc content)) sm1.1 sm1.2 = .ok sm2 ∧
      setFields (srcStep (envSrc env)) sm2.1 sm2.2 = .ok sm3 ∧
      setFields (srcStep (argSrc args)) sm3.1 sm3.2 = .ok (st4, m4) := by
  obtain ⟨sm1, sm2, sm3, h1, h2, h3, h4, _⟩ :=
    Load_ok_decompose st fsrc env args st4 m4 hload
  rw [loadFromFile_eq sm1.1 fsrc sm1.2 content hfm] at h2
  exact ⟨sm1, sm2, sm3, h1, h2, h3, h4⟩

/-- C1: the precedence law — after a successful Load, in the fixed pass
order defaults → file → environment → arguments, each later pass with a
candidate overwrites the earlier value: a field's final value is the
converted argument value when the argument scan matched, else the
converted environment value when the variable is set, else the converted
file value when the key is in the parsed file map, else the converted
default when the default literal is nonempty, else the field is
untouched. -/
theorem C1_precedence_law (st : RecordState) (fsrc : FileSrc) (env : Env)
    (args : List Str) (st4 : RecordState) (m4 : IsSetMap) (content : FileMap)
    (hload : Load st fsrc env args = .ok (st4, m4))
    (hfm : effFileMap fsrc = .ok content)
    (i : Nat) (hi : i < st.length) (hi4 : i < st4.length) :
    st4[i].1 = st[i].1 ∧
    (∀ s, argSrc args st[i].1 = some s → setFieldByKind st[i].1 s = .ok st4[i].2) ∧
    (argSrc args st[i].1 = none →
      ∀ s, envSrc env st[i].1 = some s → setFieldByKind st[i].1 s = .ok st4[i].2) ∧
    (argSrc args st[i].1 = none → envSrc env st[i].1 = none →
      ∀ s, fileSrc content st[i].1 = some s → setFieldByKind st[i].1 s = .ok st4[i].2) ∧
    (argSrc args st[i].1 = none → envSrc env st[i].1 = none →
      fileSrc content st[i].1 = none →
      ∀ s, defaultSrc st[i].1 = some s → setFieldByKind st[i].1 s = .ok st4[i].2) ∧
    (argSrc args st[i].1 = none → envSrc env st[i].1 = none →
      fileSrc content st[i].1 = none → defaultSrc st[i].1 = none →
      st4[i].2 = st[i].2) := by
  obtain ⟨sm1, sm2, sm3, h1, h2, h3, h4⟩ :=
    Load_passes st fsrc env args st4 m4 content hload hfm
  have l1 : sm1.1.length = st.length := setFields_ok_length _ st _ sm1.1 sm1.2 h1
  have l2 : sm2.1.length = sm1.1.length := setFields_ok_length _ _ _ _ _ h2
  have l3 : sm3.1.length = sm2.1.length := setFields_ok_length _ _ _ _ _ h3
  have hi1 : i < sm1.1.length := by omega
  have hi2 : i < sm2.1.length := by omega
  have hi3 : i < sm3.1.length := by omega
  have v1 := setFields_ok_val defaultSrc st _ sm1.1 sm1.2 h1 i hi hi1
  have v2 := setFields_ok_val (fileSrc content) sm1.1 sm1.2 sm2.1 sm2.2 h2 i hi1 hi2
  have v3 := setFields_ok_val (envSrc env) sm2.1 sm2.2 sm3.1 sm3.2 h3 i hi2 hi3
  have v4 := setFields_ok_val (argSrc args) sm3.1 sm3.2 st4 m4 h4 i hi3 hi4
  have e1 : sm1.1[i].1 = st[i].1 := v1.1
  have e2 : sm2.1[i].1 = st[i].1 := v2.1.trans e1
  have e3 : sm3.1[i].1 = st[i].1 := v3.1.trans e2
  have e4 : st4[i].1 = st[i].1 := v4.1.trans e3
  rw [e1] at v2
  rw [e2] at v3
  rw [e3] at v4
  refine ⟨e4, ?_, ?_, ?_, ?_, ?_⟩
  · intro s hs
    exact v4.2.2 s hs
  · intro ha s hs
    rw [v4.2.1 ha]
    exact v3.2.2 s hs
  · intro ha he s hs
    rw [v4.2.1 ha, v3.2.1 he]
    exact v2.2.2 s hs
  · intro ha he hfi s hs
    rw [v4.2.1 ha, v3.2.1 he, v2.2.1 hfi]
    exact v1.2.2 s hs
  · intro ha he hfi hd
    rw [v4.2.1 ha, v3.2.1 he, v2.2.1 hfi, v1.2.1 hd]

/-- C1 witness: one field wired to all four sources with distinct
literals ends at the converted argument value. -/
theorem C1_precedence_law_witness :
    Load [(⟨str "Field5", TypeKind.string, str "field5", str "FIELD5", str "field5",
            str "allDefault", [], []⟩, Value.vStr [])]
        (.found [str "field5: fileVal"]) [(str "FIELD5", str "envVal")]
        [str "mage", str "--field5=argVal"]
      = .ok ([(⟨str "Field5", TypeKind.string, str "field5", str "FIELD5", str "field5",
               str "allDefault", [], []⟩, Value.vStr (str "argVal"))],
             [(str "Field5", true)]) ∧
    setFieldByKind
        ⟨str "Field5", TypeKind.string, str "field5", str "FIELD5", str "field5",
         str "allDefault", [], []⟩ (str "argVal")
      = .ok (Value.vStr (str "argVal")) :=
  ⟨rfl,
   (C1_precedence_law
      [(⟨str "Field5", TypeKind.string, str "field5", str "FIELD5", str "field5",
         str "allDefault", [], []⟩, Value.vStr [])]
      (.found [str "field5: fileVal"]) [(str "FIELD5", str "envVal")]
      [str "mage", str "--field5=argVal"]
      [(⟨str "Field5", TypeKind.string, str "field5", str "FIELD5", str "field5",
         str "allDefault", [], []⟩, Value.vStr (str "argVal"))]
      [(str "Field5", true)] [(str "field5", str "fileVal")]
      rfl rfl 0 (by decide) (by decide)).2.1 (str "argVal") rfl⟩

/-- C2: set-tracking invariant — after the four passes of a resolution
call, whether or not the subsequent required/depends validation lets the
call succeed, a field's tracking flag is true exactly when at least one
source (default literal, file key, environment variable, argument match)
supplied a value for it, and the defaults pass alone already marks a
field with a nonempty default literal as set. -/
theorem C2_set_tracking (st : RecordState) (fsrc : FileSrc) (env : Env)
    (args : List Str) (sm1 sm2 sm3 : RecordState × IsSetMap)
    (st4 : RecordState) (m4 : IsSetMap) (content : FileMap)
    (h1 : setDefault st (initializeIsSet st) = .ok sm1)
    (h2 : loadFromFile sm1.1 fsrc sm1.2 = .ok sm2)
    (h3 : loadFromEnv sm2.1 env sm2.2 = .ok sm3)
    (h4 : loadFromArgs sm3.1 args sm3.2 = .ok (st4, m4))
    (hfm : effFileMap fsrc = .ok content)
    (hnodup : (st.map (fun fv => fv.1.name)).Nodup)
    (i : Nat) (hi : i < st.length) :
    (lookupIsSet m4 (st[i].1.name) = some true ↔
      ((defaultSrc st[i].1).isSome = true ∨ (fileSrc content st[i].1).isSome = true ∨
       (envSrc env st[i].1).isSome = true ∨ (argSrc args st[i].1).isSome = true)) ∧
    (∀ (st1 : RecordState) (m1 : IsSetMap),
      setDefault st (initializeIsSet st) = .ok (st1, m1) →
      st[i].1.defaultTag ≠ [] →
      lookupIsSet m1 (st[i].1.name) = some true) := by
  rw [loadFromFile_eq sm1.1 fsrc sm1.2 content hfm] at h2
  have f1 : sm1.1.map Prod.fst = st.map Prod.fst := setFields_ok_fst _ st _ sm1.1 sm1.2 h1
  have f2 : sm2.1.map Prod.fst = st.map Prod.fst :=
    (setFields_ok_fst _ _ _ _ _ h2).trans f1
  have f3 : sm3.1.map Prod.fst = st.map Prod.fst :=
    (setFields_ok_fst _ _ _ _ _ h3).trans f2
  have hnd2 : ((st.map Prod.fst).map (fun g => g.name)).Nodup := by
    rw [List.map_map]
    exact hnodup
  have hi' : i < (st.map Prod.fst).length := by simpa using hi
  have hfs : (st.map Prod.fst)[i] = st[i].1 := by simp
  have aD := any_name_nodup (fun g => (defaultSrc g).isSome) (st.map Prod.fst) hnd2 i hi'
  have aF := any_name_nodup (fun g => (fileSrc content g).isSome) (st.map Prod.fst) hnd2 i hi'
  have aE := any_name_nodup (fun g => (envSrc env g).isSome) (st.map Prod.fst) hnd2 i hi'
  have aA := any_name_nodup (fun g => (argSrc args g).isSome) (st.map Prod.fst) hnd2 i hi'
  rw [hfs] at aD aF aE aA
  have hmem : st[i].1.name ∈ st.map (fun fv => fv.1.name) :=
    List.mem_map_of_mem _ (List.getElem_mem hi)
  have h0 : lookupIsSet (initializeIsSet st) (st[i].1.name) = some false :=
    lookup_initializeIsSet st _ hmem
  have s1 := setFields_isSet defaultSrc st _ sm1.1 sm1.2 h1 (st[i].1.name)
  have s2 := setFields_isSet (fileSrc content) sm1.1 sm1.2 sm2.1 sm2.2 h2 (st[i].1.name)
  have s3 := setFields_isSet (envSrc env) sm2.1 sm2.2 sm3.1 sm3.2 h3 (st[i].1.name)
  have s4 := setFields_isSet (argSrc args) sm3.1 sm3.2 st4 m4 h4 (st[i].1.name)
  rw [f1] at s2
  rw [f2] at s3
  rw [f3] at s4
  rw [aD, h0] at s1
  rw [aF, s1] at s2
  rw [aE, s2] at s3
  rw [aA, s3] at s4
  constructor
  · rw [s4]
    cases hb1 : (defaultSrc st[i].1).isSome <;>
      cases hb2 : (fileSrc content st[i].1).isSome <;>
        cases hb3 : (envSrc env st[i].1).isSome <;>
          cases hb4 : (argSrc args st[i].1).isSome <;>
            simp [hb1, hb2, hb3, hb4]
  · intro st1 m1 hdef hne
    have s1d := setFields_isSet defaultSrc st _ st1 m1 hdef (st[i].1.name)
    rw [aD, h0] at s1d
    have hds : (defaultSrc st[i].1).isSome = true := by
      simp [defaultSrc, hne]
    rw [hds] at s1d
    simpa using s1d

/-- C2 witness: the all-sources field of the precedence scenario ends
with tracking entry true; and in a run whose validation then fails (a
required field no source supplies, so Load itself returns
RequiredNotSetError), the invariant still holds after the four passes:
the flag is true exactly when some source supplied the field. -/
theorem C2_set_tracking_witness :
    lookupIsSet [(str "Field5", true)] (str "Field5") = some true ∧
    (lookupIsSet [(str "Name", false)] (str "Name") = some true ↔
      ((defaultSrc ⟨str "Name", TypeKind.string, str "name", [], [], [],
          str "true", []⟩).isSome = true ∨
       (fileSrc [] ⟨str "Name", TypeKind.string, str "name", [], [], [],
          str "true", []⟩).isSome = true ∨
       (envSrc [] ⟨str "Name", TypeKind.string, str "name", [], [], [],
          str "true", []⟩).isSome = true ∨
       (argSrc [str "mage"] ⟨str "Name", TypeKind.string, str "name", [], [], [],
          str "true", []⟩).isSome = true)) :=
  ⟨(C2_set_tracking
      [(⟨str "Field5", TypeKind.string, str "field5", str "FIELD5", str "field5",
         str "allDefault", [], []⟩, Value.vStr [])]
      (.found [str "field5: fileVal"]) [(str "FIELD5", str "envVal")]
      [str "mage", str "--field5=argVal"]
      ([(⟨str "Field5", TypeKind.string, str "field5", str "FIELD5", str "field5",
          str "allDefault", [], []⟩, Value.vStr (str "allDefault"))],
       [(str "Field5", true)])
      ([(⟨str "Field5", TypeKind.string, str "field5", str "FIELD5", str "field5",
          str "allDefault", [], []⟩, Value.vStr (str "fileVal"))],
       [(str "Field5", true)])
      ([(⟨str "Field5", TypeKind.string, str "field5", str "FIELD5", str "field5",
          str "allDefault", [], []⟩, Value.vStr (str "envVal"))],
       [(str "Field5", true)])
      [(⟨str "Field5", TypeKind.string, str "field5", str "FIELD5", str "field5",
         str "allDefault", [], []⟩, Value.vStr (str "argVal"))]
      [(str "Field5", true)] [(str "field5", str "fileVal")]
      rfl rfl rfl rfl rfl (by decide) 0 (by decide)).1.mpr (Or.inl rfl),
   (C2_set_tracking
      [(⟨str "Name", TypeKind.string, str "name", [], [], [], str "true", []⟩,
        Value.vStr [])]
      .noPath [] [str "mage"]
      ([(⟨str "Name", TypeKind.string, str "name", [], [], [], str "true", []⟩,
         Value.vStr [])], [(str "Name", false)])
      ([(⟨str "Name", TypeKind.string, str "name", [], [], [], str "true", []⟩,
         Value.vStr [])], [(str "Name", false)])
      ([(⟨str "Name", TypeKind.string, str "name", [], [], [], str "true", []⟩,
         Value.vStr [])], [(str "Name", false)])
      [(⟨str "Name", TypeKind.string, str "name", [], [], [], str "true", []⟩,
        Value.vStr [])]
      [(str "Name", false)] []
      rfl rfl rfl rfl rfl (by decide) 0 (by decide)).1⟩

/-- C10: frame property — a field for which no source supplies a
candidate string (empty default literal, file key absent or no file
given, environment variable unset, no matching argument token) keeps its
initial value through a successful Load and its set-tracking entry stays
false. -/
theorem C10_frame (st : RecordState) (fsrc : FileSrc) (env : Env)
    (args : List Str) (st4 : RecordState) (m4 : IsSetMap) (content : FileMap)
    (hload : Load st fsrc env args = .ok (st4, m4))
    (hfm : effFileMap fsrc = .ok content)
    (hnodup : (st.map (fun fv => fv.1.name)).Nodup)
    (i : Nat) (hi : i < st.length) (hi4 : i < st4.length)
    (hd : defaultSrc st[i].1 = none) (hf : fileSrc content st[i].1 = none)
    (he : envSrc env st[i].1 = none) (ha : argSrc args st[i].1 = none) :
    st4[i].2 = st[i].2 ∧ lookupIsSet m4 (st[i].1.name) = some false := by
  obtain ⟨sm1, sm2, sm3, h1, h2, h3, h4⟩ :=
    Load_passes st fsrc env args st4 m4 content hload hfm
  have l1 : sm1.1.length = st.length := setFields_ok_length _ st _ sm1.1 sm1.2 h1
  have l2 : sm2.1.length = sm1.1.length := setFields_ok_length _ _ _ _ _ h2
  have l3 : sm3.1.length = sm2.1.length := setFields_ok_length _ _ _ _ _ h3
  have hi1 : i < sm1.1.length := by omega
  have hi2 : i < sm2.1.length := by omega
  have hi3 : i < sm3.1.length := by omega
  have v1 := setFields_ok_val defaultSrc st _ sm1.1 sm1.2 h1 i hi hi1
  have v2 := setFields_ok_val (fileSrc content) sm1.1 sm1.2 sm2.1 sm2.2 h2 i hi1 hi2
  have v3 := setFields_ok_val (envSrc env) sm2.1 sm2.2 sm3.1 sm3.2 h3 i hi2 hi3
  have v4 := setFields_ok_val (argSrc args) sm3.1 sm3.2 st4 m4 h4 i hi3 hi4
  have e1 : sm1.1[i].1 = st[i].1 := v1.1
  have e2 : sm2.1[i].1 = st[i].1 := v2.1.trans e1
  have e3 : sm3.1[i].1 = st[i].1 := v3.1.trans e2
  rw [e1] at v2
  rw [e2] at v3
  rw [e3] at v4
  constructor
  · rw [v4.2.1 ha, v3.2.1 he, v2.2.1 hf, v1.2.1 hd]
  · have f1 : sm1.1.map Prod.fst = st.map Prod.fst := setFields_ok_fst _ st _ sm1.1 sm1.2 h1
    have f2 : sm2.1.map Prod.fst = st.map Prod.fst :=
      (setFields_ok_fst _ _ _ _ _ h2).trans f1
    have f3 : sm3.1.map Prod.fst = st.map Prod.fst :=
      (setFields_ok_fst _ _ _ _ _ h3).trans f2
    have hnd2 : ((st.map Prod.fst).map (fun g => g.name)).Nodup := by
      rw [List.map_map]
      exact hnodup
    have hi' : i < (st.map Prod.fst).length := by simpa using hi
    have hfs : (st.map Prod.fst)[i] = st[i].1 := by simp
    have aD := any_name_nodup (fun g => (defaultSrc g).isSome) (st.map Prod.fst) hnd2 i hi'
    have aF := any_name_nodup (fun g => (fileSrc content g).isSome) (st.map Prod.fst) hnd2 i hi'
    have aE := any_name_nodup (fun g => (envSrc env g).isSome) (st.map Prod.fst) hnd2 i hi'
    have aA := any_name_nodup (fun g => (argSrc args g).isSome) (st.map Prod.fst) hnd2 i hi'
    rw [hfs] at aD aF aE aA
    have hmem : st[i].1.name ∈ st.map (fun fv => fv.1.name) :=
      List.mem_map_of_mem _ (List.getElem_mem hi)
    have h0 : lookupIsSet (initializeIsSet st) (st[i].1.name) = some false :=
      lookup_initializeIsSet st _ hmem
    have s1 := setFields_isSet defaultSrc st _ sm1.1 sm1.2 h1 (st[i].1.name)
    have s2 := setFields_isSet (fileSrc content) sm1.1 sm1.2 sm2.1 sm2.2 h2 (st[i].1.name)
    have s3 := setFields_isSet (envSrc env) sm2.1 sm2.2 sm3.1 sm3.2 h3 (st[i].1.name)
    have s4 := setFields_isSet (argSrc args) sm3.1 sm3.2 st4 m4 h4 (st[i].1.name)
    rw [f1] at s2
    rw [f2] at s3
    rw [f3] at s4
    rw [aD, h0] at s1
    rw [aF, s1] at s2
    rw [aE, s2] at s3
    rw [aA, s3] at s4
    rw [s4]
    simp [hd, hf, he, ha]

/-- C10 witness: a field with no sources keeps its zero value and stays
unmarked through a successful Load. -/
theorem C10_frame_witness :
    Load [(⟨str "Opt", TypeKind.string, str "opt", [], [], [], [], []⟩, Value.vStr [])]
        .noPath [] [str "mage"]
      = .ok ([(⟨str "Opt", TypeKind.string, str "opt", [], [], [], [], []⟩,
              Value.vStr [])], [(str "Opt", false)]) ∧
    lookupIsSet [(str "Opt", false)] (str "Opt") = some false :=
  ⟨rfl,
   (C10_frame
      [(⟨str "Opt", TypeKind.string, str "opt", [], [], [], [], []⟩, Value.vStr [])]
      .noPath [] [str "mage"]
      [(⟨str "Opt", TypeKind.string, str "opt", [], [], [], [], []⟩, Value.vStr [])]
      [(str "Opt", false)] []
      rfl rfl (by decide) 0 (by decide) (by decide) rfl rfl rfl rfl).2⟩


end Mageconfig
